import Mathlib

/-!
Shallow embedding of the crypto ETF dashboard backend (`src/main.py`).

Modelling conventions:

* Calendar days are integers (days since a fixed Monday), so Python's
  `weekday()` (Monday = 0 … Sunday = 6) becomes `d % 7` and
  `current_date -= timedelta(days=1)` becomes subtraction by one.
  `datetime.now()` is the explicit parameter `today`.
* Monetary values (`daily_flow`, `cumulative_flow`, `aum`, close, volume)
  are rationals; the Python code uses floats with no precision guarantees.
* The `etf_flows` table is a list of rows in insertion order; SQLAlchemy
  queries without `order_by` are modelled as list traversal in that order.
  The surrogate `id` column is not part of the model (never read).
* The external data source `yf.Ticker(t).history(period="max")` is a
  parameter `fetch : String → Option (List HistRow)`; `none` models a
  per-ticker fetch failure (the `except` branch of the update loop).
* HTTP endpoints are pure functions; `HTTPException` is the `Except.error`
  branch carrying the status code and detail string.
-/

/-- Row of the `etf_flows` table (`class ETFFlow` in `main.py`), minus the
surrogate `id` column. -/
structure ETFFlow where
  date : Int
  ticker : String
  type : String
  daily_flow : ℚ
  cumulative_flow : ℚ
  aum : ℚ
deriving Repr, DecidableEq

/-- One row of the fetched historical series: date index, `Close`, `Volume`. -/
structure HistRow where
  date : Int
  close : ℚ
  volume : ℚ
deriving Repr, DecidableEq

/-- BTC ETF ticker list from `main.py`. -/
def BTC_ETFS : List String :=
  ["IBIT", "FBTC", "BITB", "ARKB", "BTCO", "EZBC", "BRRR", "HODL", "BTCW", "GBTC", "BTC"]

/-- ETH ETF ticker list from `main.py`. -/
def ETH_ETFS : List String :=
  ["ETHA", "FETH", "ETHW", "CETH", "ETHV", "QETH", "EZET", "ETHE", "ETH"]

/-- Python's `datetime.weekday()`: Monday = 0 … Sunday = 6, with days modelled
as integers counted from a Monday. -/
def weekday (d : Int) : Int := d % 7

/-- The `while` loop of `get_business_days`: walk backwards one calendar day at
a time from `current`, collecting days whose weekday is < 5, until `need` days
have been collected.  The list comes out newest-first, as in the Python code
before the final reversal. -/
def bdayLoop (current : Int) (need : Nat) : List Int :=
  if need = 0 then []
  else if weekday current < 5 then current :: bdayLoop (current - 1) (need - 1)
  else bdayLoop (current - 1) need
termination_by 7 * need + (weekday current).toNat
decreasing_by
  · simp [weekday] at *; omega
  · simp [weekday] at *; omega

/-- `get_business_days` from `main.py`: the most recent `n_days` business days
ending at `today`, oldest first (`dates[::-1]`).  A non-positive `n_days`
makes the `while` guard immediately false, giving the empty list. -/
def get_business_days (today : Int) (n_days : Int) : List Int :=
  (bdayLoop today n_days.toNat).reverse

theorem bdayLoop_length (current : Int) (need : Nat) :
    (bdayLoop current need).length = need := by
  induction current, need using bdayLoop.induct with
  | case1 c => rw [bdayLoop]; simp
  | case2 c n h1 h2 ih => rw [bdayLoop]; simp [h1, h2, ih]; omega
  | case3 c n h1 h2 ih => rw [bdayLoop]; simp [h1, h2, ih]

theorem bdayLoop_mem_le (current : Int) (need : Nat) :
    ∀ x ∈ bdayLoop current need, x ≤ current := by
  induction current, need using bdayLoop.induct with
  | case1 c => rw [bdayLoop]; simp
  | case2 c n h1 h2 ih =>
      rw [bdayLoop]
      simp only [h1, h2, if_true, if_false]
      intro x hx
      rcases List.mem_cons.mp hx with h | h
      · omega
      · have := ih x h; omega
  | case3 c n h1 h2 ih =>
      rw [bdayLoop]
      simp only [h1, h2, if_false]
      intro x hx
      have := ih x hx; omega

theorem bdayLoop_weekday_lt (current : Int) (need : Nat) :
    ∀ x ∈ bdayLoop current need, weekday x < 5 := by
  induction current, need using bdayLoop.induct with
  | case1 c => rw [bdayLoop]; simp
  | case2 c n h1 h2 ih =>
      rw [bdayLoop]
      simp only [h1, h2]
      intro x hx
      rcases List.mem_cons.mp hx with h | h
      · exact h ▸ h2
      · exact ih x h
  | case3 c n h1 h2 ih =>
      rw [bdayLoop]
      simp only [h1, h2]
      intro x hx
      exact ih x hx

theorem bdayLoop_pairwise (current : Int) (need : Nat) :
    (bdayLoop current need).Pairwise (fun a b => b < a) := by
  induction current, need using bdayLoop.induct with
  | case1 c => rw [bdayLoop]; simp
  | case2 c n h1 h2 ih =>
      rw [bdayLoop]
      simp only [h1, h2]
      refine List.pairwise_cons.mpr ⟨?_, ih⟩
      intro x hx
      have := bdayLoop_mem_le (c - 1) (n - 1) x hx
      omega
  | case3 c n h1 h2 ih =>
      rw [bdayLoop]
      simp only [h1, h2]
      exact ih

/-- Python's `str.upper()` (ASCII letters, as in the ticker/category strings
this program compares). -/
def strUpper (s : String) : String := ⟨s.data.map Char.toUpper⟩

/-- Payload of a raised `HTTPException`: status code and detail message. -/
structure HTTPError where
  status : Nat
  detail : String
deriving Repr, DecidableEq

/-- One element of the `etfs` array in the response of
`GET /api/flows/{crypto_type}`. -/
structure ETFData where
  ticker : String
  daily_flows : List ℚ
  cumulative_flows : List ℚ
  aum : ℚ
deriving Repr, DecidableEq

/-- The `totals` object of the response. -/
structure Totals where
  daily : List ℚ
  cumulative : List ℚ
  total_aum : ℚ
deriving Repr, DecidableEq

/-- Response body of `GET /api/flows/{crypto_type}`; `dates` keeps the day
numbers (the `strftime` formatting is not modelled). -/
structure FlowsResponse where
  dates : List Int
  etfs : List ETFData
  totals : Totals
deriving Repr, DecidableEq

/-- Per-ticker part of the body of `get_flows`: query the rows for `etf`
whose date is in the business-day window, start from all-zero dense arrays
and overwrite the positions whose date matches, tracking the last-written
`aum` (`current_aum` starts at 0). -/
def etfSeries (db : List ETFFlow) (business_days : List Int) (etf : String) : ETFData :=
  let flows := db.filter (fun r => r.ticker == etf && business_days.contains r.date)
  let init : List ℚ × List ℚ × ℚ :=
    (List.replicate business_days.length 0, List.replicate business_days.length 0, 0)
  let filled := flows.foldl (fun acc flow =>
    match business_days.findIdx? (fun d => d == flow.date) with
    | some date_index =>
        (acc.1.set date_index flow.daily_flow,
         acc.2.1.set date_index flow.cumulative_flow,
         flow.aum)
    | none => acc) init
  { ticker := etf, daily_flows := filled.1, cumulative_flows := filled.2.1, aum := filled.2.2 }

/-- Success body of `get_flows`: choose the ticker list for the category,
compute the business-day window, build the dense per-ticker series and the
per-index totals (`totals.daily[i] = sum over etfs of daily_flows[i]`, etc.;
the in-bounds indexing `etf['daily_flows'][i]` is modelled by `getD i 0`). -/
def flowsBody (db : List ETFFlow) (today : Int) (crypto_type : String) (days : Int) :
    FlowsResponse :=
  let etf_list := if strUpper crypto_type = "BTC" then BTC_ETFS else ETH_ETFS
  let business_days := get_business_days today days
  let results := etf_list.map (etfSeries db business_days)
  let total_flows : Totals :=
    { daily := (List.range business_days.length).map (fun i =>
        (results.map (fun e => e.daily_flows.getD i 0)).sum)
      cumulative := (List.range business_days.length).map (fun i =>
        (results.map (fun e => e.cumulative_flows.getD i 0)).sum)
      total_aum := (results.map (fun e => e.aum)).sum }
  { dates := business_days, etfs := results, totals := total_flows }

/-- `GET /api/flows/{crypto_type}` (`get_flows` in `main.py`).  Invalid
categories raise a 400 before anything else happens (and before any state
could be touched); otherwise the assembled body is returned. -/
def get_flows (db : List ETFFlow) (today : Int) (crypto_type : String) (days : Int) :
    Except HTTPError FlowsResponse :=
  if ¬(strUpper crypto_type = "BTC" ∨ strUpper crypto_type = "ETH") then
    .error ⟨400, "Invalid crypto type"⟩
  else
    .ok (flowsBody db today crypto_type days)

/-- Update the first list entry satisfying `p` in place (SQLAlchemy mutates
the single row object returned by `.first()`). -/
def updateFirst (p : ETFFlow → Bool) (f : ETFFlow → ETFFlow) : List ETFFlow → List ETFFlow
  | [] => []
  | r :: rs => if p r then f r :: rs else r :: updateFirst p f rs

/-- The query `db.query(ETFFlow).filter(ticker == t, date < d)
.order_by(ETFFlow.date.desc()).first()`: among the rows for ticker `t`
strictly before `d`, the one with the greatest date (first such row in
table order on ties). -/
def latestBefore (db : List ETFFlow) (t : String) (d : Int) : Option ETFFlow :=
  (db.filter (fun r => r.ticker == t && decide (r.date < d))).foldl
    (fun acc r =>
      match acc with
      | none => some r
      | some a => if a.date < r.date then some r else acc)
    none

/-- The `prev_flow.cumulative_flow if prev_flow else 0` expression. -/
def prevCumulative (db : List ETFFlow) (t : String) (d : Int) : ℚ :=
  match latestBefore db t d with
  | some p => p.cumulative_flow
  | none => 0

/-- Body of the per-date loop of `update_flows`: compute the day's flow,
add the previous cumulative flow, then upsert the (ticker, date) row. -/
def processDay (ticker crypto_type : String) (db : List ETFFlow) (row : HistRow) :
    List ETFFlow :=
  let flow_date := row.date
  let daily_flow : ℚ := row.volume * row.close / 1000000
  let cumulative_flow : ℚ := prevCumulative db ticker flow_date + daily_flow
  match db.find? (fun r => r.ticker == ticker && r.date == flow_date) with
  | some _ =>
      updateFirst (fun r => r.ticker == ticker && r.date == flow_date)
        (fun r => { r with
          daily_flow := daily_flow,
          cumulative_flow := cumulative_flow,
          aum := row.close * row.volume / 1000000 }) db
  | none =>
      db ++ [{ date := flow_date, ticker := ticker, type := crypto_type,
               daily_flow := daily_flow, cumulative_flow := cumulative_flow,
               aum := row.close * row.volume / 1000000 }]

/-- Per-ticker part of `update_flows`: fetch the full history and process its
rows in order; a failed fetch (`none`) is the `except` branch, which leaves
the table untouched and moves on. -/
def processTicker (db : List ETFFlow) (crypto_type ticker : String)
    (fetch : String → Option (List HistRow)) : List ETFFlow :=
  match fetch ticker with
  | none => db
  | some hist => hist.foldl (processDay ticker crypto_type) db

/-- Result of `GET /api/update`: the returned status string and the table the
run leaves behind. -/
structure UpdateResult where
  status : String
  table : List ETFFlow
deriving Repr, DecidableEq

/-- `GET /api/update` (`update_flows` in `main.py`): truncate the table, then
for both category lists process every ticker in order; always reports
`"success"` (store-level failures are not modelled — lists cannot fail). -/
def update_flows (db0 : List ETFFlow) (fetch : String → Option (List HistRow)) :
    UpdateResult :=
  let db : List ETFFlow := []
  let db := [(BTC_ETFS, "BTC"), (ETH_ETFS, "ETH")].foldl
    (fun db p => p.1.foldl (fun db ticker => processTicker db p.2 ticker fetch) db) db
  { status := "success", table := db }

/-- Flat (ticker, category) traversal order of the two nested loops of
`update_flows`. -/
def tickerPairs : List (String × String) :=
  BTC_ETFS.map (fun t => (t, "BTC")) ++ ETH_ETFS.map (fun t => (t, "ETH"))

theorem update_flows_status (db0 : List ETFFlow) (fetch : String → Option (List HistRow)) :
    (update_flows db0 fetch).status = "success" := rfl

theorem update_flows_table (db0 : List ETFFlow) (fetch : String → Option (List HistRow)) :
    (update_flows db0 fetch).table =
      tickerPairs.foldl (fun db p => processTicker db p.2 p.1 fetch) [] := by
  simp [update_flows, tickerPairs, List.foldl_append, List.foldl_map]

theorem get_flows_valid (db : List ETFFlow) (today : Int) (days : Int) (c : String)
    (hc : strUpper c = "BTC" ∨ strUpper c = "ETH") :
    get_flows db today c days = .ok (flowsBody db today c days) := by
  simp [get_flows, hc]

/-- Claim C2: for every positive `n`, the business-day sequence for `days = n`
has exactly `n` dates, every date is a weekday (Monday–Friday), the dates are
in strictly increasing chronological order, and there are no duplicates. -/
theorem C2_business_days_shape (today : Int) (n_days : Int) (hn : 0 < n_days) :
    ((get_business_days today n_days).length : Int) = n_days ∧
    (∀ d ∈ get_business_days today n_days, weekday d < 5) ∧
    (get_business_days today n_days).Pairwise (fun a b => a < b) ∧
    (get_business_days today n_days).Nodup := by
  refine ⟨?_, ?_, ?_, ?_⟩
  · simp [get_business_days, bdayLoop_length]
    omega
  · intro d hd
    exact bdayLoop_weekday_lt today n_days.toNat d (List.mem_reverse.mp hd)
  · exact List.pairwise_reverse.mpr (bdayLoop_pairwise today n_days.toNat)
  · refine List.Pairwise.imp ?_ (List.pairwise_reverse.mpr (bdayLoop_pairwise today n_days.toNat))
    intro a b h
    omega

theorem C2_business_days_shape_witness :
    ((get_business_days 9 5).length : Int) = 5 ∧
    (∀ d ∈ get_business_days 9 5, weekday d < 5) ∧
    (get_business_days 9 5).Pairwise (fun a b => a < b) ∧
    (get_business_days 9 5).Nodup :=
  C2_business_days_shape 9 5 (by decide)

/-- Claim C3: a category whose upper-cased form is neither BTC nor ETH makes
`GET /api/flows/{category}` fail with status 400 and an explanatory message
(the endpoint is a pure read — no stored state is touched on any path), while
BTC or ETH in any letter case does not hit this validation error. -/
theorem C3_category_validation (db : List ETFFlow) (today : Int) (days : Int)
    (c : String) :
    (strUpper c ≠ "BTC" ∧ strUpper c ≠ "ETH" →
      get_flows db today c days = .error ⟨400, "Invalid crypto type"⟩) ∧
    (strUpper c = "BTC" ∨ strUpper c = "ETH" →
      (get_flows db today c days).isOk = true) := by
  constructor
  · intro h
    simp [get_flows, h.1, h.2]
  · intro hc
    rw [get_flows_valid db today days c hc]
    rfl

theorem C3_category_validation_witness :
    (get_flows [] 0 "XYZ" 14 = .error ⟨400, "Invalid crypto type"⟩) ∧
    ((get_flows [] 0 "btc" 14).isOk = true) ∧
    ((get_flows [] 0 "eTh" 14).isOk = true) :=
  ⟨(C3_category_validation [] 0 14 "XYZ").1 (by constructor <;> decide),
   (C3_category_validation [] 0 14 "btc").2 (Or.inl (by decide)),
   (C3_category_validation [] 0 14 "eTh").2 (Or.inr (by decide))⟩

/-- Claim C10: for a valid category and `days ≤ 0`, the endpoint still
succeeds: `dates` is empty, every ticker's series arrays are empty with
`aum = 0`, and both totals arrays are empty. -/
theorem C10_nonpositive_days (db : List ETFFlow) (today : Int) (days : Int)
    (c : String) (hc : strUpper c = "BTC" ∨ strUpper c = "ETH") (hd : days ≤ 0) :
    ∃ resp, get_flows db today c days = .ok resp ∧
      resp.dates = [] ∧
      resp.totals.daily = [] ∧
      resp.totals.cumulative = [] ∧
      (∀ e ∈ resp.etfs, e.daily_flows = [] ∧ e.cumulative_flows = [] ∧ e.aum = 0) := by
  have hb : get_business_days today days = [] := by
    have : days.toNat = 0 := by omega
    simp [get_business_days, this, bdayLoop]
  refine ⟨flowsBody db today c days, get_flows_valid db today days c hc, ?_, ?_, ?_, ?_⟩
  · simp only [flowsBody, hb]
  · simp only [flowsBody, hb]
    simp
  · simp only [flowsBody, hb]
    simp
  · simp only [flowsBody, hb]
    intro e he
    rcases List.mem_map.mp he with ⟨t, _ht, rfl⟩
    simp [etfSeries]

theorem C10_nonpositive_days_witness :
    ∃ resp, get_flows [] 0 "BTC" (-3) = .ok resp ∧
      resp.dates = [] ∧
      resp.totals.daily = [] ∧
      resp.totals.cumulative = [] ∧
      (∀ e ∈ resp.etfs, e.daily_flows = [] ∧ e.cumulative_flows = [] ∧ e.aum = 0) :=
  C10_nonpositive_days [] 0 (-3) "BTC" (Or.inl (by decide)) (by decide)

theorem flowsBody_dates (db : List ETFFlow) (today : Int) (c : String) (days : Int) :
    (flowsBody db today c days).dates = get_business_days today days := rfl

theorem flowsBody_etfs (db : List ETFFlow) (today : Int) (c : String) (days : Int) :
    (flowsBody db today c days).etfs =
      (if strUpper c = "BTC" then BTC_ETFS else ETH_ETFS).map
        (etfSeries db (get_business_days today days)) := rfl

theorem etfSeries_ticker (db : List ETFFlow) (bd : List Int) (t : String) :
    (etfSeries db bd t).ticker = t := rfl

theorem find?_beq_of_mem {t : String} {l : List String} (h : t ∈ l) :
    l.find? (fun u => u == t) = some t := by
  induction l with
  | nil => simp at h
  | cons a l ih =>
      rw [List.find?_cons]
      by_cases ha : (a == t) = true
      · simp only [ha]
        simpa using ha
      · rw [Bool.not_eq_true] at ha
        simp only [ha]
        rcases List.mem_cons.mp h with h' | h'
        · simp [h'] at ha
        · exact ih h'

theorem etfSeries_no_rows (db : List ETFFlow) (bd : List Int) (t : String)
    (hno : ∀ r ∈ db, r.ticker = t → r.date ∉ bd) :
    etfSeries db bd t = ⟨t, List.replicate bd.length 0, List.replicate bd.length 0, 0⟩ := by
  have hfilter : db.filter (fun r => r.ticker == t && bd.contains r.date) = [] := by
    rw [List.filter_eq_nil_iff]
    intro r hr
    by_cases h : r.ticker = t
    · simp [h, hno r hr h]
    · simp [h]
  simp only [etfSeries]
  rw [hfilter]
  rfl

/-- Claim C4: for a valid category and positive `days`, a ticker of that
category with no stored row whose date falls inside the business-day window
yields all-zero `daily_flows` and `cumulative_flows` arrays of the requested
length and `aum = 0` — not an error. -/
theorem C4_missing_ticker_zero_series (db : List ETFFlow) (today : Int) (days : Int)
    (c : String) (t : String)
    (hc : strUpper c = "BTC" ∨ strUpper c = "ETH")
    (hdays : 0 < days)
    (ht : t ∈ (if strUpper c = "BTC" then BTC_ETFS else ETH_ETFS))
    (hno : ∀ r ∈ db, r.ticker = t → r.date ∉ get_business_days today days) :
    ∃ resp, get_flows db today c days = .ok resp ∧
      resp.etfs.find? (fun e => e.ticker == t) =
        some ⟨t, List.replicate days.toNat 0, List.replicate days.toNat 0, 0⟩ ∧
      ((List.replicate days.toNat (0:ℚ)).length : Int) = days := by
  refine ⟨flowsBody db today c days, get_flows_valid db today days c hc, ?_, ?_⟩
  · rw [flowsBody_etfs]
    rw [List.find?_map]
    have hcomp :
        ((fun e => e.ticker == t) ∘ etfSeries db (get_business_days today days)) =
          fun u => u == t := by
      funext u
      simp [etfSeries_ticker]
    rw [hcomp, find?_beq_of_mem ht, Option.map_some']
    have hlen : (get_business_days today days).length = days.toNat := by
      simp [get_business_days, bdayLoop_length]
    rw [etfSeries_no_rows db _ t hno, hlen]
  · simp
    omega

theorem C4_missing_ticker_zero_series_witness :
    ∃ resp, get_flows [] 0 "BTC" 1 = .ok resp ∧
      resp.etfs.find? (fun e => e.ticker == "IBIT") =
        some ⟨"IBIT", List.replicate (1:Int).toNat 0, List.replicate (1:Int).toNat 0, 0⟩ ∧
      ((List.replicate (1:Int).toNat (0:ℚ)).length : Int) = 1 :=
  C4_missing_ticker_zero_series [] 0 1 "BTC" "IBIT" (Or.inl (by decide)) (by decide)
    (by decide) (by simp)

/-- Claim C5: in every successful response, `totals.daily[i]` is the sum over
the returned etfs of `daily_flows[i]`, `totals.cumulative[i]` the sum of
`cumulative_flows[i]`, and `totals.total_aum` the sum of the `aum` values. -/
theorem C5_totals_are_sums (db : List ETFFlow) (today : Int) (days : Int)
    (c : String) (resp : FlowsResponse)
    (h : get_flows db today c days = .ok resp) (i : Nat)
    (hi : i < resp.dates.length) :
    resp.totals.daily.getD i 0 =
      (resp.etfs.map (fun e => e.daily_flows.getD i 0)).sum ∧
    resp.totals.cumulative.getD i 0 =
      (resp.etfs.map (fun e => e.cumulative_flows.getD i 0)).sum ∧
    resp.totals.total_aum = (resp.etfs.map (fun e => e.aum)).sum := by
  by_cases hc : strUpper c = "BTC" ∨ strUpper c = "ETH"
  · rw [get_flows_valid db today days c hc] at h
    cases h
    rw [flowsBody_dates] at hi
    refine ⟨?_, ?_, ?_⟩
    · show ((List.range (get_business_days today days).length).map _).getD i 0 = _
      rw [List.getD_eq_getElem?_getD, List.getElem?_map, List.getElem?_range hi]
      rfl
    · show ((List.range (get_business_days today days).length).map _).getD i 0 = _
      rw [List.getD_eq_getElem?_getD, List.getElem?_map, List.getElem?_range hi]
      rfl
    · rfl
  · rw [get_flows, if_pos hc] at h
    cases h

/-- Concrete response used to witness claim C5: empty table, category ETH,
`days = 1`, `today = 0`. -/
def c5Resp : FlowsResponse :=
  { dates := [0],
    etfs := ETH_ETFS.map (fun t =>
      { ticker := t, daily_flows := [0], cumulative_flows := [0], aum := 0 }),
    totals := { daily := [0], cumulative := [0], total_aum := 0 } }

theorem C5_totals_are_sums_witness :
    c5Resp.totals.daily.getD 0 0 =
      (c5Resp.etfs.map (fun e => e.daily_flows.getD 0 0)).sum ∧
    c5Resp.totals.cumulative.getD 0 0 =
      (c5Resp.etfs.map (fun e => e.cumulative_flows.getD 0 0)).sum ∧
    c5Resp.totals.total_aum = (c5Resp.etfs.map (fun e => e.aum)).sum :=
  C5_totals_are_sums [] 0 1 "ETH" c5Resp
    (by
      rw [get_flows_valid [] 0 1 "ETH" (Or.inr (by decide))]
      simp [flowsBody, get_business_days, bdayLoop, weekday, etfSeries, ETH_ETFS, c5Resp,
        show strUpper "ETH" ≠ "BTC" from by decide, Function.comp,
        List.range_succ, List.range_zero])
    0 (by decide)

/-- Claim C6: running the update twice in immediate succession with the same
upstream data leaves the table identical to what the first run produced: the
run truncates whatever table it starts from and rebuilds purely from `fetch`. -/
theorem C6_update_idempotent (db0 : List ETFFlow)
    (fetch : String → Option (List HistRow)) :
    (update_flows (update_flows db0 fetch).table fetch).table =
      (update_flows db0 fetch).table := rfl

theorem updateFirst_mem {p : ETFFlow → Bool} {f : ETFFlow → ETFFlow}
    {db : List ETFFlow} {r : ETFFlow} (h : r ∈ updateFirst p f db) :
    r ∈ db ∨ ∃ r0 ∈ db, p r0 = true ∧ r = f r0 := by
  induction db with
  | nil => simp [updateFirst] at h
  | cons a l ih =>
      rw [updateFirst] at h
      by_cases hp : p a
      · rw [if_pos hp] at h
        rcases List.mem_cons.mp h with h' | h'
        · exact Or.inr ⟨a, List.mem_cons_self a l, hp, h'⟩
        · exact Or.inl (List.mem_cons_of_mem a h')
      · rw [if_neg hp] at h
        rcases List.mem_cons.mp h with h' | h'
        · exact Or.inl (h' ▸ List.mem_cons_self a l)
        · rcases ih h' with h'' | ⟨r0, hr0, hpr0, hr⟩
          · exact Or.inl (List.mem_cons_of_mem a h'')
          · exact Or.inr ⟨r0, List.mem_cons_of_mem a hr0, hpr0, hr⟩

theorem processDay_aum (t c : String) (db : List ETFFlow) (row : HistRow)
    (h : ∀ r ∈ db, r.aum = r.daily_flow) :
    ∀ r ∈ processDay t c db row, r.aum = r.daily_flow := by
  intro r hr
  simp only [processDay] at hr
  split at hr
  · rcases updateFirst_mem hr with h' | ⟨r0, _hr0, _hp, rfl⟩
    · exact h r h'
    · simp [mul_comm]
  · rcases List.mem_append.mp hr with h' | h'
    · exact h r h'
    · simp at h'
      subst h'
      simp [mul_comm]

theorem foldl_processDay_aum (t c : String) (hist : List HistRow) :
    ∀ db : List ETFFlow, (∀ r ∈ db, r.aum = r.daily_flow) →
      ∀ r ∈ hist.foldl (processDay t c) db, r.aum = r.daily_flow := by
  induction hist with
  | nil => intro db h; simpa using h
  | cons row rest ih =>
      intro db h
      rw [List.foldl_cons]
      exact ih (processDay t c db row) (processDay_aum t c db row h)

theorem processTicker_aum (db : List ETFFlow) (c t : String)
    (fetch : String → Option (List HistRow))
    (h : ∀ r ∈ db, r.aum = r.daily_flow) :
    ∀ r ∈ processTicker db c t fetch, r.aum = r.daily_flow := by
  rw [processTicker]
  cases fetch t with
  | none => exact h
  | some hist => exact foldl_processDay_aum t c hist db h

theorem runPairs_aum (fetch : String → Option (List HistRow)) :
    ∀ (ps : List (String × String)) (db : List ETFFlow),
      (∀ r ∈ db, r.aum = r.daily_flow) →
      ∀ r ∈ ps.foldl (fun db p => processTicker db p.2 p.1 fetch) db,
        r.aum = r.daily_flow := by
  intro ps
  induction ps with
  | nil => intro db h; simpa using h
  | cons p rest ih =>
      intro db h
      rw [List.foldl_cons]
      exact ih _ (processTicker_aum db p.2 p.1 fetch h)

/-- Claim C9: every record the update pipeline writes has `aum` equal to
`daily_flow` — both are `volume * close / 1e6` (the two multiplications are
written in opposite orders in the source, which is the same value). -/
theorem C9_aum_eq_daily_flow (db0 : List ETFFlow)
    (fetch : String → Option (List HistRow)) :
    ∀ r ∈ (update_flows db0 fetch).table, r.aum = r.daily_flow := by
  rw [update_flows_table]
  exact runPairs_aum fetch tickerPairs [] (by simp)

/-- Example data source shared by the update-pipeline witnesses: only IBIT
has history (two days with zero close and volume), every other ticker fails. -/
def exampleFetch : String → Option (List HistRow) :=
  fun t => if t = "IBIT" then some [⟨0, 0, 0⟩, ⟨1, 0, 0⟩] else none

theorem exampleFetch_table :
    (update_flows [] exampleFetch).table =
      [⟨0, "IBIT", "BTC", 0, 0, 0⟩, ⟨1, "IBIT", "BTC", 0, 0, 0⟩] := by
  simp [update_flows, BTC_ETFS, ETH_ETFS, processTicker, exampleFetch, processDay,
    latestBefore, prevCumulative, updateFirst]

theorem C9_aum_eq_daily_flow_witness :
    (⟨1, "IBIT", "BTC", 0, 0, 0⟩ : ETFFlow).aum =
      (⟨1, "IBIT", "BTC", 0, 0, 0⟩ : ETFFlow).daily_flow :=
  C9_aum_eq_daily_flow [] exampleFetch ⟨1, "IBIT", "BTC", 0, 0, 0⟩
    (by rw [exampleFetch_table]; simp)

/-- The (ticker, date) key of a stored row. -/
def rowKey (r : ETFFlow) : String × Int := (r.ticker, r.date)

theorem updateFirst_map_eq {α : Type} {g : ETFFlow → α} {p : ETFFlow → Bool}
    {f : ETFFlow → ETFFlow} (hg : ∀ r, g (f r) = g r) (db : List ETFFlow) :
    (updateFirst p f db).map g = db.map g := by
  induction db with
  | nil => rfl
  | cons a l ih =>
      rw [updateFirst]
      by_cases hp : p a
      · rw [if_pos hp]
        simp [hg a]
      · rw [if_neg hp]
        simp [ih]

theorem updateFirst_keys_nodup (p : ETFFlow → Bool) (f : ETFFlow → ETFFlow)
    (db : List ETFFlow) (hf : ∀ r, rowKey (f r) = rowKey r)
    (h : (db.map rowKey).Nodup) : ((updateFirst p f db).map rowKey).Nodup := by
  rw [updateFirst_map_eq hf db]
  exact h

theorem processDay_keys_nodup (t c : String) (db : List ETFFlow) (row : HistRow)
    (h : (db.map rowKey).Nodup) :
    ((processDay t c db row).map rowKey).Nodup := by
  simp only [processDay]
  split
  · exact updateFirst_keys_nodup _ _ db (fun r => rfl) h
  · rename_i hfind
    rw [List.map_append]
    rw [List.nodup_append]
    refine ⟨h, by simp, ?_⟩
    intro k hk hk'
    simp only [List.map_cons, List.map_nil, List.mem_singleton] at hk'
    subst hk'
    rcases List.mem_map.mp hk with ⟨r, hr, hkey⟩
    have := List.find?_eq_none.mp hfind r hr
    simp only [rowKey, ETFFlow.mk.injEq] at hkey
    simp only [Bool.and_eq_true, beq_iff_eq, not_and] at this
    have h1 : r.ticker = t := congrArg Prod.fst hkey
    have h2 : r.date = row.date := congrArg Prod.snd hkey
    exact this h1 h2

theorem foldl_processDay_keys_nodup (t c : String) (hist : List HistRow) :
    ∀ db : List ETFFlow, (db.map rowKey).Nodup →
      ((hist.foldl (processDay t c) db).map rowKey).Nodup := by
  induction hist with
  | nil => intro db h; simpa using h
  | cons row rest ih =>
      intro db h
      rw [List.foldl_cons]
      exact ih _ (processDay_keys_nodup t c db row h)

theorem processTicker_keys_nodup (db : List ETFFlow) (c t : String)
    (fetch : String → Option (List HistRow)) (h : (db.map rowKey).Nodup) :
    ((processTicker db c t fetch).map rowKey).Nodup := by
  rw [processTicker]
  cases fetch t with
  | none => exact h
  | some hist => exact foldl_processDay_keys_nodup t c hist db h

theorem runPairs_keys_nodup (fetch : String → Option (List HistRow)) :
    ∀ (ps : List (String × String)) (db : List ETFFlow),
      (db.map rowKey).Nodup →
      (((ps.foldl (fun db p => processTicker db p.2 p.1 fetch) db)).map rowKey).Nodup := by
  intro ps
  induction ps with
  | nil => intro db h; simpa using h
  | cons p rest ih =>
      intro db h
      rw [List.foldl_cons]
      exact ih _ (processTicker_keys_nodup db p.2 p.1 fetch h)

/-- Claim C8: after an update run (and hence after any sequence of runs, each
of which starts by truncating the table), the stored table has at most one
record per (ticker, date) pair; this comes from the find-then-update/insert
logic alone — the schema declares no uniqueness constraint. -/
theorem C8_unique_ticker_date (db0 : List ETFFlow)
    (fetch : String → Option (List HistRow)) :
    ((update_flows db0 fetch).table.map rowKey).Nodup := by
  rw [update_flows_table]
  exact runPairs_keys_nodup fetch tickerPairs [] (by simp)

theorem filter_updateFirst_stable (p : ETFFlow → Bool) (f : ETFFlow → ETFFlow)
    (q : ETFFlow → Bool) (hfq : ∀ r, q (f r) = q r) :
    ∀ db : List ETFFlow, (∀ r ∈ db, p r = true → q r = false) →
      (updateFirst p f db).filter q = db.filter q := by
  intro db
  induction db with
  | nil => intro _; rfl
  | cons a l ih =>
      intro h
      rw [updateFirst]
      by_cases hp : p a
      · rw [if_pos hp]
        have hqa : q a = false := h a (List.mem_cons_self a l) hp
        rw [List.filter_cons, List.filter_cons, hfq a, hqa]
        rfl
      · rw [if_neg hp]
        rw [List.filter_cons, List.filter_cons,
          ih (fun r hr hpr => h r (List.mem_cons_of_mem a hr) hpr)]

theorem latestBefore_append (db : List ETFFlow) (new : ETFFlow) (t : String) (d : Int)
    (h : (new.ticker == t && decide (new.date < d)) = false) :
    latestBefore (db ++ [new]) t d = latestBefore db t d := by
  simp only [latestBefore, List.filter_append, List.filter_cons, h]
  simp

theorem latestBefore_updateFirst (p : ETFFlow → Bool) (f : ETFFlow → ETFFlow)
    (db : List ETFFlow) (t : String) (d : Int)
    (hf : ∀ r, (f r).ticker = r.ticker ∧ (f r).date = r.date)
    (hq : ∀ r ∈ db, p r = true → (r.ticker == t && decide (r.date < d)) = false) :
    latestBefore (updateFirst p f db) t d = latestBefore db t d := by
  simp only [latestBefore]
  rw [filter_updateFirst_stable p f _ (fun r => by rw [(hf r).1, (hf r).2]) db hq]

theorem prevCumulative_append (db : List ETFFlow) (new : ETFFlow) (t : String) (d : Int)
    (h : (new.ticker == t && decide (new.date < d)) = false) :
    prevCumulative (db ++ [new]) t d = prevCumulative db t d := by
  simp only [prevCumulative, latestBefore_append db new t d h]

theorem prevCumulative_updateFirst (p : ETFFlow → Bool) (f : ETFFlow → ETFFlow)
    (db : List ETFFlow) (t : String) (d : Int)
    (hf : ∀ r, (f r).ticker = r.ticker ∧ (f r).date = r.date)
    (hq : ∀ r ∈ db, p r = true → (r.ticker == t && decide (r.date < d)) = false) :
    prevCumulative (updateFirst p f db) t d = prevCumulative db t d := by
  simp only [prevCumulative, latestBefore_updateFirst p f db t d hf hq]

/-- The cumulative-flow invariant of claim C1, for one stored row: its
cumulative flow is the cumulative flow of the most recent strictly-earlier
row of the same ticker (0 if none) plus its own daily flow. -/
def C1prop (db : List ETFFlow) (r : ETFFlow) : Prop :=
  r.cumulative_flow = prevCumulative db r.ticker r.date + r.daily_flow

theorem processDay_C1 (t c : String) (db : List ETFFlow) (row : HistRow)
    (h1 : ∀ r ∈ db, C1prop db r)
    (h2 : ∀ r ∈ db, r.ticker = t → r.date ≤ row.date) :
    (∀ r ∈ processDay t c db row, C1prop (processDay t c db row) r) ∧
    (∀ r ∈ processDay t c db row, r.ticker = t → r.date ≤ row.date) := by
  simp only [processDay]
  split
  · -- update branch: the (t, row.date) row exists and is overwritten in place
    have hf : ∀ r : ETFFlow,
        (({ r with
            daily_flow := row.volume * row.close / 1000000,
            cumulative_flow := prevCumulative db t row.date + row.volume * row.close / 1000000,
            aum := row.close * row.volume / 1000000 } : ETFFlow).ticker = r.ticker) ∧
        (({ r with
            daily_flow := row.volume * row.close / 1000000,
            cumulative_flow := prevCumulative db t row.date + row.volume * row.close / 1000000,
            aum := row.close * row.volume / 1000000 } : ETFFlow).date = r.date) :=
      fun r => ⟨rfl, rfl⟩
    constructor
    · intro r hr
      rcases updateFirst_mem hr with hrdb | ⟨r0, hr0, hp0, rfl⟩
      · -- a row that was not touched
        have hq : ∀ r' ∈ db, (r'.ticker == t && r'.date == row.date) = true →
            (r'.ticker == r.ticker && decide (r'.date < r.date)) = false := by
          intro r' _hr' hp'
          simp only [Bool.and_eq_true, beq_iff_eq] at hp'
          by_cases hrt : r.ticker = t
          · have hle : r.date ≤ row.date := h2 r hrdb hrt
            simp only [Bool.and_eq_false_iff, decide_eq_false_iff_not, not_lt]
            right
            omega
          · simp only [Bool.and_eq_false_iff]
            left
            simp only [beq_eq_false_iff_ne, ne_eq, hp'.1]
            exact fun h' => hrt h'.symm
        rw [C1prop, prevCumulative_updateFirst _ _ db r.ticker r.date hf hq]
        exact h1 r hrdb
      · -- the overwritten row itself
        simp only [Bool.and_eq_true, beq_iff_eq] at hp0
        have hq : ∀ r' ∈ db, (r'.ticker == t && r'.date == row.date) = true →
            (r'.ticker == r0.ticker && decide (r'.date < r0.date)) = false := by
          intro r' _hr' hp'
          simp only [Bool.and_eq_true, beq_iff_eq] at hp'
          simp only [Bool.and_eq_false_iff, decide_eq_false_iff_not, not_lt]
          right
          omega
        show prevCumulative db t row.date + row.volume * row.close / 1000000 =
          prevCumulative
            (updateFirst (fun r' => r'.ticker == t && r'.date == row.date)
              (fun r' => { r' with
                daily_flow := row.volume * row.close / 1000000,
                cumulative_flow :=
                  prevCumulative db t row.date + row.volume * row.close / 1000000,
                aum := row.close * row.volume / 1000000 }) db)
            r0.ticker r0.date + row.volume * row.close / 1000000
        rw [prevCumulative_updateFirst _ _ db r0.ticker r0.date hf hq, hp0.1, hp0.2]
    · intro r hr hrt
      rcases updateFirst_mem hr with hrdb | ⟨r0, hr0, hp0, rfl⟩
      · exact h2 r hrdb hrt
      · simp only [Bool.and_eq_true, beq_iff_eq] at hp0
        show r0.date ≤ row.date
        omega
  · -- insert branch: no (t, row.date) row exists; a fresh row is appended
    constructor
    · intro r hr
      rcases List.mem_append.mp hr with hrdb | hrnew
      · have hnb : ((({ date := row.date, ticker := t, type := c,
                        daily_flow := row.volume * row.close / 1000000,
                        cumulative_flow :=
                          prevCumulative db t row.date + row.volume * row.close / 1000000,
                        aum := row.close * row.volume / 1000000 } : ETFFlow)).ticker
              == r.ticker &&
            decide ((({ date := row.date, ticker := t, type := c,
                        daily_flow := row.volume * row.close / 1000000,
                        cumulative_flow :=
                          prevCumulative db t row.date + row.volume * row.close / 1000000,
                        aum := row.close * row.volume / 1000000 } : ETFFlow)).date
              < r.date)) = false := by
          by_cases hrt : r.ticker = t
          · have hle : r.date ≤ row.date := h2 r hrdb hrt
            simp only [Bool.and_eq_false_iff, decide_eq_false_iff_not, not_lt]
            right
            omega
          · simp only [Bool.and_eq_false_iff]
            left
            simp only [beq_eq_false_iff_ne, ne_eq]
            exact fun h' => hrt h'.symm
        rw [C1prop, prevCumulative_append db _ r.ticker r.date hnb]
        exact h1 r hrdb
      · simp only [List.mem_singleton] at hrnew
        subst hrnew
        rw [C1prop]
        show prevCumulative db t row.date + row.volume * row.close / 1000000 =
          prevCumulative (db ++ [_]) t row.date + row.volume * row.close / 1000000
        rw [prevCumulative_append db _ t row.date (by simp)]
    · intro r hr hrt
      rcases List.mem_append.mp hr with hrdb | hrnew
      · exact h2 r hrdb hrt
      · simp only [List.mem_singleton] at hrnew
        subst hrnew
        exact le_refl _

theorem foldHist_C1 (t c : String) :
    ∀ (hist : List HistRow) (db : List ETFFlow),
      List.Pairwise (fun a b : HistRow => a.date ≤ b.date) hist →
      (∀ r ∈ db, C1prop db r) →
      (∀ r ∈ db, r.ticker = t → ∀ row ∈ hist, r.date ≤ row.date) →
      ∀ r ∈ hist.foldl (processDay t c) db,
        C1prop (hist.foldl (processDay t c) db) r := by
  intro hist
  induction hist with
  | nil =>
      intro db _ h1 _
      simpa using h1
  | cons row rest ih =>
      intro db hsort h1 h2
      rw [List.foldl_cons]
      have hs := List.pairwise_cons.mp hsort
      have step := processDay_C1 t c db row h1
        (fun r hr ht => h2 r hr ht row (List.mem_cons_self _ _))
      apply ih (processDay t c db row) hs.2 step.1
      intro r hr ht row' hrow'
      have hd := step.2 r hr ht
      have := hs.1 row' hrow'
      omega

theorem processDay_ticker_pres (Q : String → Prop) (t c : String) (db : List ETFFlow)
    (row : HistRow) (hdb : ∀ r ∈ db, Q r.ticker) (ht : Q t) :
    ∀ r ∈ processDay t c db row, Q r.ticker := by
  intro r hr
  simp only [processDay] at hr
  split at hr
  · rcases updateFirst_mem hr with h' | ⟨r0, hr0, _hp, rfl⟩
    · exact hdb r h'
    · exact hdb r0 hr0
  · rcases List.mem_append.mp hr with h' | h'
    · exact hdb r h'
    · simp only [List.mem_singleton] at h'
      subst h'
      exact ht

theorem foldl_processDay_ticker_pres (Q : String → Prop) (t c : String)
    (hist : List HistRow) (ht : Q t) :
    ∀ db : List ETFFlow, (∀ r ∈ db, Q r.ticker) →
      ∀ r ∈ hist.foldl (processDay t c) db, Q r.ticker := by
  induction hist with
  | nil =>
      intro db hdb
      simpa using hdb
  | cons row rest ih =>
      intro db hdb
      rw [List.foldl_cons]
      exact ih (processDay t c db row) (processDay_ticker_pres Q t c db row hdb ht)

theorem processTicker_ticker_pres (Q : String → Prop) (db : List ETFFlow)
    (c t : String) (fetch : String → Option (List HistRow))
    (hdb : ∀ r ∈ db, Q r.ticker) (ht : Q t) :
    ∀ r ∈ processTicker db c t fetch, Q r.ticker := by
  rw [processTicker]
  cases fetch t with
  | none => exact hdb
  | some hist => exact foldl_processDay_ticker_pres Q t c hist ht db hdb

theorem processTicker_C1 (db : List ETFFlow) (c t : String)
    (fetch : String → Option (List HistRow))
    (hs : ∀ h, fetch t = some h → List.Pairwise (fun a b : HistRow => a.date ≤ b.date) h)
    (h1 : ∀ r ∈ db, C1prop db r)
    (h2 : ∀ r ∈ db, r.ticker ≠ t) :
    ∀ r ∈ processTicker db c t fetch, C1prop (processTicker db c t fetch) r := by
  rw [processTicker]
  cases hf : fetch t with
  | none => exact h1
  | some hist =>
      exact foldHist_C1 t c hist db (hs hist hf) h1
        (fun r hr ht => absurd ht (h2 r hr))

theorem runPairs_C1 (fetch : String → Option (List HistRow))
    (hsorted : ∀ t h, fetch t = some h →
      List.Pairwise (fun a b : HistRow => a.date ≤ b.date) h) :
    ∀ (ps : List (String × String)) (db : List ETFFlow),
      (ps.map Prod.fst).Nodup →
      (∀ r ∈ db, C1prop db r) →
      (∀ r ∈ db, r.ticker ∉ ps.map Prod.fst) →
      ∀ r ∈ ps.foldl (fun db p => processTicker db p.2 p.1 fetch) db,
        C1prop (ps.foldl (fun db p => processTicker db p.2 p.1 fetch) db) r := by
  intro ps
  induction ps with
  | nil =>
      intro db _ h1 _
      simpa using h1
  | cons p rest ih =>
      intro db hnodup h1 hfresh
      rw [List.foldl_cons]
      rw [List.map_cons, List.nodup_cons] at hnodup
      have hfresh1 : ∀ r ∈ db, r.ticker ≠ p.1 := by
        intro r hr
        have := hfresh r hr
        simp only [List.map_cons, List.mem_cons, not_or] at this
        exact this.1
      have h1' := processTicker_C1 db p.2 p.1 fetch (fun h hf => hsorted p.1 h hf) h1 hfresh1
      have hfresh' : ∀ r ∈ processTicker db p.2 p.1 fetch, r.ticker ∉ rest.map Prod.fst := by
        refine processTicker_ticker_pres (fun u => u ∉ rest.map Prod.fst) db p.2 p.1 fetch ?_
          hnodup.1
        intro r hr
        have := hfresh r hr
        simp only [List.map_cons, List.mem_cons, not_or] at this
        exact this.2
      exact ih (processTicker db p.2 p.1 fetch) hnodup.2 h1' hfresh'

/-- Claim C1: every row the update pipeline writes satisfies the cumulative
recurrence — its `cumulative_flow` is the `cumulative_flow` of the most
recent strictly-earlier row of the same ticker plus the row's own
`daily_flow`, or the `daily_flow` alone when no earlier row exists
(`prevCumulative` is 0 then).  The hypothesis that each fetched history is
date-sorted models the ascending date index of the upstream source, which the
per-date loop traverses in chronological order. -/
theorem C1_cumulative_recurrence (db0 : List ETFFlow)
    (fetch : String → Option (List HistRow))
    (hsorted : ∀ t h, fetch t = some h →
      List.Pairwise (fun a b : HistRow => a.date ≤ b.date) h) :
    ∀ r ∈ (update_flows db0 fetch).table,
      r.cumulative_flow =
        prevCumulative (update_flows db0 fetch).table r.ticker r.date + r.daily_flow := by
  have := runPairs_C1 fetch hsorted tickerPairs []
    (by decide) (by simp) (by simp)
  rw [update_flows_table]
  exact fun r hr => this r hr

theorem C1_cumulative_recurrence_witness :
    (⟨1, "IBIT", "BTC", 0, 0, 0⟩ : ETFFlow).cumulative_flow =
      prevCumulative (update_flows [] exampleFetch).table
        (⟨1, "IBIT", "BTC", 0, 0, 0⟩ : ETFFlow).ticker
        (⟨1, "IBIT", "BTC", 0, 0, 0⟩ : ETFFlow).date +
      (⟨1, "IBIT", "BTC", 0, 0, 0⟩ : ETFFlow).daily_flow :=
  C1_cumulative_recurrence [] exampleFetch
    (by
      intro t h hf
      simp only [exampleFetch] at hf
      by_cases ht : t = "IBIT"
      · rw [if_pos ht] at hf
        cases hf
        refine List.pairwise_cons.mpr ⟨?_, by simp⟩
        intro row hrow
        simp only [List.mem_singleton] at hrow
        subst hrow
        norm_num
      · rw [if_neg ht] at hf
        cases hf)
    ⟨1, "IBIT", "BTC", 0, 0, 0⟩
    (by rw [exampleFetch_table]; simp)

theorem filter_updateFirst_incl (p : ETFFlow → Bool) (f : ETFFlow → ETFFlow)
    (q : ETFFlow → Bool) (hpq : ∀ r, p r = true → q r = true)
    (hfq : ∀ r, q (f r) = q r) :
    ∀ db : List ETFFlow, (updateFirst p f db).filter q = updateFirst p f (db.filter q) := by
  intro db
  induction db with
  | nil => rfl
  | cons a l ih =>
      rw [updateFirst]
      by_cases hp : p a
      · have hqa : q a = true := hpq a hp
        have hqf : q (f a) = true := by rw [hfq a, hqa]
        rw [if_pos hp, List.filter_cons, List.filter_cons, hqa, hqf]
        show f a :: List.filter q l = updateFirst p f (a :: List.filter q l)
        rw [updateFirst, if_pos hp]
      · rw [if_neg hp, List.filter_cons, List.filter_cons]
        cases hqa : q a
        · show List.filter q (updateFirst p f l) = updateFirst p f (List.filter q l)
          exact ih
        · show a :: List.filter q (updateFirst p f l) =
            updateFirst p f (a :: List.filter q l)
          rw [updateFirst, if_neg hp, ih]

theorem filter_filter_ticker (db : List ETFFlow) (t : String) (d : Int) :
    (db.filter (fun r => r.ticker == t)).filter
        (fun r => r.ticker == t && decide (r.date < d)) =
      db.filter (fun r => r.ticker == t && decide (r.date < d)) := by
  rw [List.filter_filter]
  apply List.filter_congr
  intro r _
  cases h : (r.ticker == t) <;> simp [h]

theorem latestBefore_filter_ticker (db : List ETFFlow) (t : String) (d : Int) :
    latestBefore (db.filter (fun r => r.ticker == t)) t d = latestBefore db t d := by
  simp only [latestBefore, filter_filter_ticker]

theorem prevCumulative_filter_ticker (db : List ETFFlow) (t : String) (d : Int) :
    prevCumulative (db.filter (fun r => r.ticker == t)) t d = prevCumulative db t d := by
  simp only [prevCumulative, latestBefore_filter_ticker]

theorem find?_filter_of_imp (p q : ETFFlow → Bool) (h : ∀ r, p r = true → q r = true) :
    ∀ l : List ETFFlow, (l.filter q).find? p = l.find? p := by
  intro l
  induction l with
  | nil => rfl
  | cons a l ih =>
      rw [List.filter_cons]
      cases hq : q a
      · have hp : p a = false := by
          cases hp : p a
          · rfl
          · rw [h a hp] at hq
            cases hq
        rw [List.find?_cons]
        simp only [hp]
        exact ih
      · show List.find? p (a :: List.filter q l) = List.find? p (a :: l)
        rw [List.find?_cons, List.find?_cons]
        cases hp : p a
        · simp only [hp]
          exact ih
        · simp only [hp]

theorem processDay_filter_ne (u c : String) (db : List ETFFlow) (row : HistRow)
    (t : String) (hne : u ≠ t) :
    (processDay u c db row).filter (fun r => r.ticker == t) =
      db.filter (fun r => r.ticker == t) := by
  simp only [processDay]
  split
  · refine filter_updateFirst_stable _ _ _ ?_ db ?_
    · intro r
      rfl
    · intro r _hr hp
      simp only [Bool.and_eq_true, beq_iff_eq] at hp
      simp only [beq_eq_false_iff_ne, ne_eq, hp.1]
      exact fun h' => hne h'
  · rw [List.filter_append, List.filter_cons]
    simp [hne]

theorem processDay_filter_ticker (t c : String) (db : List ETFFlow) (row : HistRow) :
    (processDay t c db row).filter (fun r => r.ticker == t) =
      processDay t c (db.filter (fun r => r.ticker == t)) row := by
  simp only [processDay]
  rw [prevCumulative_filter_ticker db t row.date]
  rw [find?_filter_of_imp (fun r => r.ticker == t && r.date == row.date)
    (fun r => r.ticker == t) (fun r hp => by
      simp only [Bool.and_eq_true] at hp
      exact hp.1) db]
  cases hfind : db.find? (fun r => r.ticker == t && r.date == row.date) with
  | some r0 =>
      simp only [hfind]
      refine filter_updateFirst_incl _ _ _ ?_ ?_ db
      · intro r hp
        simp only [Bool.and_eq_true] at hp
        exact hp.1
      · intro r
        rfl
  | none =>
      simp only [hfind]
      rw [List.filter_append, List.filter_cons]
      simp

theorem foldl_processDay_filter_ticker (t c : String) (hist : List HistRow) :
    ∀ db : List ETFFlow,
      (hist.foldl (processDay t c) db).filter (fun r => r.ticker == t) =
        hist.foldl (processDay t c) (db.filter (fun r => r.ticker == t)) := by
  induction hist with
  | nil => intro db; rfl
  | cons row rest ih =>
      intro db
      rw [List.foldl_cons, List.foldl_cons, ih, processDay_filter_ticker]

theorem processTicker_filter_ticker (db : List ETFFlow) (c t : String)
    (fetch : String → Option (List HistRow)) :
    (processTicker db c t fetch).filter (fun r => r.ticker == t) =
      processTicker (db.filter (fun r => r.ticker == t)) c t fetch := by
  rw [processTicker, processTicker]
  cases fetch t with
  | none => rfl
  | some hist => exact foldl_processDay_filter_ticker t c hist db

theorem foldl_processDay_filter_ne (u c t : String) (hne : u ≠ t) (hist : List HistRow) :
    ∀ db : List ETFFlow,
      (hist.foldl (processDay u c) db).filter (fun r => r.ticker == t) =
        db.filter (fun r => r.ticker == t) := by
  induction hist with
  | nil => intro db; rfl
  | cons row rest ih =>
      intro db
      rw [List.foldl_cons, ih (processDay u c db row), processDay_filter_ne u c db row t hne]

theorem processTicker_filter_ne (db : List ETFFlow) (c u : String)
    (fetch : String → Option (List HistRow)) (t : String) (hne : u ≠ t) :
    (processTicker db c u fetch).filter (fun r => r.ticker == t) =
      db.filter (fun r => r.ticker == t) := by
  rw [processTicker]
  cases fetch u with
  | none => rfl
  | some hist => exact foldl_processDay_filter_ne u c t hne hist db

theorem runPairs_t0_empty (fetch' : String → Option (List HistRow)) (t0 : String)
    (hfail : fetch' t0 = none) :
    ∀ (ps : List (String × String)) (db : List ETFFlow),
      db.filter (fun r => r.ticker == t0) = [] →
      (ps.foldl (fun db p => processTicker db p.2 p.1 fetch') db).filter
          (fun r => r.ticker == t0) = [] := by
  intro ps
  induction ps with
  | nil =>
      intro db h
      simpa using h
  | cons p rest ih =>
      intro db h
      rw [List.foldl_cons]
      apply ih
      by_cases hu : p.1 = t0
      · rw [processTicker, hu, hfail]
        exact h
      · rw [processTicker_filter_ne db p.2 p.1 fetch' t0 hu]
        exact h

theorem runPairs_filter_agree (fetch fetch' : String → Option (List HistRow))
    (t0 : String) (hagree : ∀ u, u ≠ t0 → fetch' u = fetch u)
    (t : String) (hne : t ≠ t0) :
    ∀ (ps : List (String × String)) (db1 db2 : List ETFFlow),
      db1.filter (fun r => r.ticker == t) = db2.filter (fun r => r.ticker == t) →
      (ps.foldl (fun db p => processTicker db p.2 p.1 fetch') db1).filter
          (fun r => r.ticker == t) =
        (ps.foldl (fun db p => processTicker db p.2 p.1 fetch) db2).filter
          (fun r => r.ticker == t) := by
  intro ps
  induction ps with
  | nil =>
      intro db1 db2 h
      simpa using h
  | cons p rest ih =>
      intro db1 db2 h
      rw [List.foldl_cons, List.foldl_cons]
      apply ih
      by_cases hu : p.1 = t
      · subst hu
        rw [processTicker_filter_ticker db1 p.2 p.1 fetch',
          processTicker_filter_ticker db2 p.2 p.1 fetch, h]
        rw [processTicker, processTicker, hagree p.1 (fun h' => hne (h' ▸ rfl))]
      · rw [processTicker_filter_ne db1 p.2 p.1 fetch' t hu,
          processTicker_filter_ne db2 p.2 p.1 fetch t hu]
        exact h

/-- Claim C7: if the data source fails for exactly one ticker `t0` during an
update run (and behaves as before for every other ticker), the run still
completes with status success, no rows are stored for `t0`, and every other
ticker ends with exactly the rows it would have had without the failure. -/
theorem C7_single_ticker_failure (db0 db0' : List ETFFlow)
    (fetch fetch' : String → Option (List HistRow)) (t0 : String)
    (hfail : fetch' t0 = none)
    (hagree : ∀ u, u ≠ t0 → fetch' u = fetch u) :
    (update_flows db0' fetch').status = "success" ∧
    (update_flows db0' fetch').table.filter (fun r => r.ticker == t0) = [] ∧
    ∀ t, t ≠ t0 →
      (update_flows db0' fetch').table.filter (fun r => r.ticker == t) =
        (update_flows db0 fetch).table.filter (fun r => r.ticker == t) := by
  refine ⟨rfl, ?_, ?_⟩
  · rw [update_flows_table]
    exact runPairs_t0_empty fetch' t0 hfail tickerPairs [] rfl
  · intro t hne
    rw [update_flows_table, update_flows_table]
    exact runPairs_filter_agree fetch fetch' t0 hagree t hne tickerPairs [] [] rfl

/-- Variant of `exampleFetch` whose fetch for GBTC fails, used to witness
claim C7. -/
def exampleFetchFail : String → Option (List HistRow) :=
  fun t => if t = "GBTC" then none else exampleFetch t

theorem C7_single_ticker_failure_witness :
    (update_flows [] exampleFetchFail).status = "success" ∧
    (update_flows [] exampleFetchFail).table.filter (fun r => r.ticker == "GBTC") = [] ∧
    (update_flows [] exampleFetchFail).table.filter (fun r => r.ticker == "IBIT") =
      (update_flows [] exampleFetch).table.filter (fun r => r.ticker == "IBIT") := by
  have h := C7_single_ticker_failure [] [] exampleFetch exampleFetchFail "GBTC"
    (by rw [exampleFetchFail, if_pos rfl])
    (fun u hu => by rw [exampleFetchFail, if_neg hu])
  exact ⟨h.1, h.2.1, h.2.2 "IBIT" (by decide)⟩
